import Mathlib

set_option maxRecDepth 8000

/-!
# Etherlink protocol engine — shallow embedding and verification

This file embeds the core of the Etherlink framed binary protocol
(`etherlink.c`: CRC-8 engine, incremental frame parser, frame encoder)
into Lean and proves the specified properties about it.

Modelling conventions:
* C `uint8_t` values are `Nat`s; where the C code can overflow
  (the `uint8_t` write cursor increment, the `uint32_t` statistics
  counters) the model reduces modulo `2^8` resp. `2^32` exactly as the
  machine does.
* The two callback function pointers (`on_message`, `send_bytes`) are
  modelled as `Nat` pointer values, `0` standing for `NULL`; the side
  effects of invoking them are modelled as explicit event traces
  returned next to the updated context.
* The 250-byte receive buffer is a `List Nat`; the C array write
  `rx_buffer[payload_idx++] = byte` becomes `List.set`.  The payload
  view handed to the message callback is the first `payload_len` bytes
  of the buffer.
-/

namespace Etherlink

/-- `EL_SYNC_BYTE` from etherlink.h. -/
def EL_SYNC_BYTE : Nat := 0xA5

/-- `EL_MAX_PAYLOAD` from etherlink.h. -/
def EL_MAX_PAYLOAD : Nat := 250

/-- `EL_FRAME_OVERHEAD` from etherlink.h. -/
def EL_FRAME_OVERHEAD : Nat := 4

/-- Parser state machine states, `el_state_t` from etherlink.h. -/
inductive ElState where
  | idle
  | gotSync
  | gotId
  | gotLen
  | gotPayload
deriving DecidableEq, Repr

/-- One invocation of the `on_message` callback: the arguments
`(msg_id, payload view, len)` passed by `el_process_byte`. -/
structure MsgEvent where
  msg_id : Nat
  payload : List Nat
  len : Nat
deriving DecidableEq, Repr

/-- `el_ctx_t` from etherlink.h.  The two function pointers are
modelled by their pointer values (`0` = `NULL`). -/
structure ElCtx where
  on_message : Nat
  send_bytes : Nat
  state : ElState
  msg_id : Nat
  payload_len : Nat
  payload_idx : Nat
  rx_buffer : List Nat
  running_crc : Nat
  rx_frames : Nat
  rx_errors : Nat
  tx_frames : Nat
deriving DecidableEq, Repr

/-- The 256-entry CRC-8/CCITT lookup table `crc8_table` from
etherlink.c (polynomial 0x07, init 0x00), entry for entry. -/
def crc8_table : List Nat := [
  0x00, 0x07, 0x0E, 0x09, 0x1C, 0x1B, 0x12, 0x15,
  0x38, 0x3F, 0x36, 0x31, 0x24, 0x23, 0x2A, 0x2D,
  0x70, 0x77, 0x7E, 0x79, 0x6C, 0x6B, 0x62, 0x65,
  0x48, 0x4F, 0x46, 0x41, 0x54, 0x53, 0x5A, 0x5D,
  0xE0, 0xE7, 0xEE, 0xE9, 0xFC, 0xFB, 0xF2, 0xF5,
  0xD8, 0xDF, 0xD6, 0xD1, 0xC4, 0xC3, 0xCA, 0xCD,
  0x90, 0x97, 0x9E, 0x99, 0x8C, 0x8B, 0x82, 0x85,
  0xA8, 0xAF, 0xA6, 0xA1, 0xB4, 0xB3, 0xBA, 0xBD,
  0xC7, 0xC0, 0xC9, 0xCE, 0xDB, 0xDC, 0xD5, 0xD2,
  0xFF, 0xF8, 0xF1, 0xF6, 0xE3, 0xE4, 0xED, 0xEA,
  0xB7, 0xB0, 0xB9, 0xBE, 0xAB, 0xAC, 0xA5, 0xA2,
  0x8F, 0x88, 0x81, 0x86, 0x93, 0x94, 0x9D, 0x9A,
  0x27, 0x20, 0x29, 0x2E, 0x3B, 0x3C, 0x35, 0x32,
  0x1F, 0x18, 0x11, 0x16, 0x03, 0x04, 0x0D, 0x0A,
  0x57, 0x50, 0x59, 0x5E, 0x4B, 0x4C, 0x45, 0x42,
  0x6F, 0x68, 0x61, 0x66, 0x73, 0x74, 0x7D, 0x7A,
  0x89, 0x8E, 0x87, 0x80, 0x95, 0x92, 0x9B, 0x9C,
  0xB1, 0xB6, 0xBF, 0xB8, 0xAD, 0xAA, 0xA3, 0xA4,
  0xF9, 0xFE, 0xF7, 0xF0, 0xE5, 0xE2, 0xEB, 0xEC,
  0xC1, 0xC6, 0xCF, 0xC8, 0xDD, 0xDA, 0xD3, 0xD4,
  0x69, 0x6E, 0x67, 0x60, 0x75, 0x72, 0x7B, 0x7C,
  0x51, 0x56, 0x5F, 0x58, 0x4D, 0x4A, 0x43, 0x44,
  0x19, 0x1E, 0x17, 0x10, 0x05, 0x02, 0x0B, 0x0C,
  0x21, 0x26, 0x2F, 0x28, 0x3D, 0x3A, 0x33, 0x34,
  0x4E, 0x49, 0x40, 0x47, 0x52, 0x55, 0x5C, 0x5B,
  0x76, 0x71, 0x78, 0x7F, 0x6A, 0x6D, 0x64, 0x63,
  0x3E, 0x39, 0x30, 0x37, 0x22, 0x25, 0x2C, 0x2B,
  0x06, 0x01, 0x08, 0x0F, 0x1A, 0x1D, 0x14, 0x13,
  0xAE, 0xA9, 0xA0, 0xA7, 0xB2, 0xB5, 0xBC, 0xBB,
  0x96, 0x91, 0x98, 0x9F, 0x8A, 0x8D, 0x84, 0x83,
  0xDE, 0xD9, 0xD0, 0xD7, 0xC2, 0xC5, 0xCC, 0xCB,
  0xE6, 0xE1, 0xE8, 0xEF, 0xFA, 0xFD, 0xF4, 0xF3]

/-- `el_crc8_update`: `return crc8_table[crc ^ byte];`. -/
def el_crc8_update (crc byte : Nat) : Nat :=
  crc8_table.getD (crc ^^^ byte) 0

/-- `el_crc8`: fold the table update over the data starting from 0. -/
def el_crc8 (data : List Nat) : Nat :=
  data.foldl el_crc8_update 0

/-- The context produced by `el_init`'s `memset` + field assignments,
for callback pointer values `om` and `sb`. -/
def el_initCtx (om sb : Nat) : ElCtx where
  on_message := om
  send_bytes := sb
  state := .idle
  msg_id := 0
  payload_len := 0
  payload_idx := 0
  rx_buffer := List.replicate 250 0
  running_crc := 0
  rx_frames := 0
  rx_errors := 0
  tx_frames := 0

/-- `el_init`: fails (`none`) when either callback pointer is `NULL`,
otherwise zero-initialises the context and installs the callbacks. -/
def el_init (om sb : Nat) : Option ElCtx :=
  if om = 0 ∨ sb = 0 then none else some (el_initCtx om sb)

/-- `el_reset`: state to `IDLE`, write cursor and running CRC to 0. -/
def el_reset (ctx : ElCtx) : ElCtx :=
  { ctx with state := .idle, payload_idx := 0, running_crc := 0 }

/-- `el_process_byte` from etherlink.c: one state-machine transition.
Returns the updated context together with the list of message-callback
invocations performed during the call (empty or a singleton). -/
def el_process_byte (ctx : ElCtx) (byte : Nat) : ElCtx × List MsgEvent :=
  match ctx.state with
  | .idle =>
      if byte = EL_SYNC_BYTE then
        ({ ctx with state := .gotSync, running_crc := 0 }, [])
      else
        (ctx, [])
  | .gotSync =>
      ({ ctx with msg_id := byte,
                  running_crc := el_crc8_update ctx.running_crc byte,
                  state := .gotId }, [])
  | .gotId =>
      let crc := el_crc8_update ctx.running_crc byte
      if byte > EL_MAX_PAYLOAD then
        ({ ctx with payload_len := byte, running_crc := crc,
                    rx_errors := (ctx.rx_errors + 1) % 2 ^ 32,
                    state := .idle }, [])
      else if byte = 0 then
        ({ ctx with payload_len := byte, running_crc := crc,
                    state := .gotPayload }, [])
      else
        ({ ctx with payload_len := byte, running_crc := crc,
                    payload_idx := 0, state := .gotLen }, [])
  | .gotLen =>
      let idx := (ctx.payload_idx + 1) % 2 ^ 8
      let ctx := { ctx with
        rx_buffer := ctx.rx_buffer.set ctx.payload_idx byte,
        payload_idx := idx,
        running_crc := el_crc8_update ctx.running_crc byte }
      if ctx.payload_idx ≥ ctx.payload_len then
        ({ ctx with state := .gotPayload }, [])
      else
        (ctx, [])
  | .gotPayload =>
      if byte = ctx.running_crc then
        ({ ctx with rx_frames := (ctx.rx_frames + 1) % 2 ^ 32,
                    state := .idle },
         if ctx.on_message ≠ 0 then
           [⟨ctx.msg_id, ctx.rx_buffer.take ctx.payload_len, ctx.payload_len⟩]
         else [])
      else
        ({ ctx with rx_errors := (ctx.rx_errors + 1) % 2 ^ 32,
                    state := .idle }, [])

/-- `el_process_bytes`: process the bytes in order, concatenating the
callback invocations in the order they happen. -/
def el_process_bytes (ctx : ElCtx) (data : List Nat) : ElCtx × List MsgEvent :=
  match data with
  | [] => (ctx, [])
  | b :: rest =>
      let r := el_process_byte ctx b
      let r2 := el_process_bytes r.1 rest
      (r2.1, r.2 ++ r2.2)

/-- `el_send` from etherlink.c.  The payload argument is an optional
byte list (`none` = `NULL` pointer) with an explicit length, as in C.
Returns the boolean result, the updated context, and the list of
byte-sink invocations (each one the byte sequence handed to the sink). -/
def el_send (ctx : ElCtx) (msg_id : Nat) (payload : Option (List Nat))
    (len : Nat) : Bool × ElCtx × List (List Nat) :=
  if ctx.send_bytes = 0 then (false, ctx, [])
  else if len > EL_MAX_PAYLOAD then (false, ctx, [])
  else if len > 0 ∧ payload = none then (false, ctx, [])
  else
    let body := msg_id :: len :: (payload.getD []).take len
    let frame := EL_SYNC_BYTE :: (body ++ [el_crc8 body])
    (true,
     { ctx with tx_frames := (ctx.tx_frames + 1) % 2 ^ 32 },
     [frame])

/-- The wire frame for message-id `m` and payload `p`:
`[sync][m][|p|][p…][crc]` with the CRC over `m :: |p| :: p`. -/
def frameBytes (m : Nat) (p : List Nat) : List Nat :=
  EL_SYNC_BYTE :: m :: p.length :: (p ++ [el_crc8 (m :: p.length :: p)])

/-- Contexts reachable from `el_init` by processing bytes and resets. -/
inductive Reachable : ElCtx → Prop where
  | init (om sb : Nat) (c : ElCtx) (h : el_init om sb = some c) : Reachable c
  | step (c : ElCtx) (b : Nat) (h : Reachable c) :
      Reachable (el_process_byte c b).1
  | reset (c : ElCtx) (h : Reachable c) : Reachable (el_reset c)

/-- One round of the reference bitwise CRC, written from the spec's
words: shift left, and xor in the polynomial 0x07 when the top bit was
set, all within 8 bits. -/
def spec_crc8_step (crc : Nat) : Nat :=
  if crc &&& 0x80 ≠ 0 then ((crc * 2) ^^^ 0x07) % 2 ^ 8 else (crc * 2) % 2 ^ 8

/-- Folding one byte into the reference bitwise CRC: xor the byte into
the accumulator and run eight polynomial-division rounds. -/
def spec_crc8_byte (crc byte : Nat) : Nat :=
  spec_crc8_step^[8] ((crc ^^^ byte) % 2 ^ 8)

/-- The reference naive bitwise CRC-8 of the spec: polynomial 0x07,
initial value 0x00, no reflection, one byte at a time. -/
def spec_crc8_bitwise (data : List Nat) : Nat :=
  data.foldl spec_crc8_byte 0

/-- The inverse permutation of `crc8_table`: entry `crc8_table[i]`
maps back to `i`.  Used to prove the table lookup injective. -/
def crc8_inv_table : List Nat := [
  0x00, 0xD9, 0xB5, 0x6C, 0x6D, 0xB4, 0xD8, 0x01,
  0xDA, 0x03, 0x6F, 0xB6, 0xB7, 0x6E, 0x02, 0xDB,
  0xB3, 0x6A, 0x06, 0xDF, 0xDE, 0x07, 0x6B, 0xB2,
  0x69, 0xB0, 0xDC, 0x05, 0x04, 0xDD, 0xB1, 0x68,
  0x61, 0xB8, 0xD4, 0x0D, 0x0C, 0xD5, 0xB9, 0x60,
  0xBB, 0x62, 0x0E, 0xD7, 0xD6, 0x0F, 0x63, 0xBA,
  0xD2, 0x0B, 0x67, 0xBE, 0xBF, 0x66, 0x0A, 0xD3,
  0x08, 0xD1, 0xBD, 0x64, 0x65, 0xBC, 0xD0, 0x09,
  0xC2, 0x1B, 0x77, 0xAE, 0xAF, 0x76, 0x1A, 0xC3,
  0x18, 0xC1, 0xAD, 0x74, 0x75, 0xAC, 0xC0, 0x19,
  0x71, 0xA8, 0xC4, 0x1D, 0x1C, 0xC5, 0xA9, 0x70,
  0xAB, 0x72, 0x1E, 0xC7, 0xC6, 0x1F, 0x73, 0xAA,
  0xA3, 0x7A, 0x16, 0xCF, 0xCE, 0x17, 0x7B, 0xA2,
  0x79, 0xA0, 0xCC, 0x15, 0x14, 0xCD, 0xA1, 0x78,
  0x10, 0xC9, 0xA5, 0x7C, 0x7D, 0xA4, 0xC8, 0x11,
  0xCA, 0x13, 0x7F, 0xA6, 0xA7, 0x7E, 0x12, 0xCB,
  0x83, 0x5A, 0x36, 0xEF, 0xEE, 0x37, 0x5B, 0x82,
  0x59, 0x80, 0xEC, 0x35, 0x34, 0xED, 0x81, 0x58,
  0x30, 0xE9, 0x85, 0x5C, 0x5D, 0x84, 0xE8, 0x31,
  0xEA, 0x33, 0x5F, 0x86, 0x87, 0x5E, 0x32, 0xEB,
  0xE2, 0x3B, 0x57, 0x8E, 0x8F, 0x56, 0x3A, 0xE3,
  0x38, 0xE1, 0x8D, 0x54, 0x55, 0x8C, 0xE0, 0x39,
  0x51, 0x88, 0xE4, 0x3D, 0x3C, 0xE5, 0x89, 0x50,
  0x8B, 0x52, 0x3E, 0xE7, 0xE6, 0x3F, 0x53, 0x8A,
  0x41, 0x98, 0xF4, 0x2D, 0x2C, 0xF5, 0x99, 0x40,
  0x9B, 0x42, 0x2E, 0xF7, 0xF6, 0x2F, 0x43, 0x9A,
  0xF2, 0x2B, 0x47, 0x9E, 0x9F, 0x46, 0x2A, 0xF3,
  0x28, 0xF1, 0x9D, 0x44, 0x45, 0x9C, 0xF0, 0x29,
  0x20, 0xF9, 0x95, 0x4C, 0x4D, 0x94, 0xF8, 0x21,
  0xFA, 0x23, 0x4F, 0x96, 0x97, 0x4E, 0x22, 0xFB,
  0x93, 0x4A, 0x26, 0xFF, 0xFE, 0x27, 0x4B, 0x92,
  0x49, 0x90, 0xFC, 0x25, 0x24, 0xFD, 0x91, 0x48]

/-- Folding the table CRC update over a byte list from an arbitrary
accumulator (the parser's incremental `running_crc` computation). -/
def el_crc8_fold (crc : Nat) (data : List Nat) : Nat :=
  data.foldl el_crc8_update crc

/-- Writing a byte list into a buffer at consecutive indices starting
at `k`: the effect of the parser's payload-phase `rx_buffer` writes. -/
def writeList (buf : List Nat) (k : Nat) (q : List Nat) : List Nat :=
  match q with
  | [] => buf
  | b :: rest => writeList (buf.set k b) (k + 1) rest

/-! ### Facts about the CRC lookup table -/

set_option maxRecDepth 2000 in
lemma crc8_table_length : crc8_table.length = 256 := by rfl

set_option maxHeartbeats 1000000 in
set_option maxRecDepth 4000 in
lemma crc8_table_entry_bitwise :
    ∀ i < 256, crc8_table.getD i 0 = spec_crc8_byte 0 i := by decide

set_option maxHeartbeats 1000000 in
set_option maxRecDepth 4000 in
lemma crc8_table_entry_lt : ∀ i < 256, crc8_table.getD i 0 < 256 := by decide

set_option maxHeartbeats 1000000 in
set_option maxRecDepth 10000 in
lemma crc8_inv_left_bool :
    ((List.range 256).all fun i =>
      crc8_inv_table.getD (crc8_table.getD i 0) 0 == i) = true := by decide

lemma crc8_inv_left :
    ∀ i < 256, crc8_inv_table.getD (crc8_table.getD i 0) 0 = i := by
  intro i hi
  have h := List.all_eq_true.mp crc8_inv_left_bool i (List.mem_range.mpr hi)
  exact beq_iff_eq.mp h

lemma crc8_table_getD_inj {i j : Nat} (hi : i < 256) (hj : j < 256)
    (h : crc8_table.getD i 0 = crc8_table.getD j 0) : i = j := by
  have h1 := crc8_inv_left i hi
  have h2 := crc8_inv_left j hj
  rw [h, h2] at h1
  exact h1.symm

/-! ### The table-driven CRC update -/

lemma xor_lt_256 {a b : Nat} (ha : a < 256) (hb : b < 256) : a ^^^ b < 256 := by
  have := Nat.xor_lt_two_pow (n := 8) (by simpa using ha) (by simpa using hb)
  simpa using this

lemma el_crc8_update_lt {crc b : Nat} (h1 : crc < 256) (h2 : b < 256) :
    el_crc8_update crc b < 256 :=
  crc8_table_entry_lt _ (xor_lt_256 h1 h2)

lemma el_crc8_update_left_inj {a a' b : Nat} (ha : a < 256) (ha' : a' < 256)
    (hb : b < 256) (hne : a ≠ a') :
    el_crc8_update a b ≠ el_crc8_update a' b := by
  intro h
  exact hne (Nat.xor_left_inj.mp
    (crc8_table_getD_inj (xor_lt_256 ha hb) (xor_lt_256 ha' hb) h))

lemma el_crc8_update_right_inj {c b b' : Nat} (hc : c < 256) (hb : b < 256)
    (hb' : b' < 256) (hne : b ≠ b') :
    el_crc8_update c b ≠ el_crc8_update c b' := by
  intro h
  exact hne (Nat.xor_right_inj.mp
    (crc8_table_getD_inj (xor_lt_256 hc hb) (xor_lt_256 hc hb') h))

lemma el_crc8_fold_nil (crc : Nat) : el_crc8_fold crc [] = crc := rfl

lemma el_crc8_fold_cons (crc b : Nat) (rest : List Nat) :
    el_crc8_fold crc (b :: rest) = el_crc8_fold (el_crc8_update crc b) rest := rfl

lemma el_crc8_fold_append (crc : Nat) (u v : List Nat) :
    el_crc8_fold crc (u ++ v) = el_crc8_fold (el_crc8_fold crc u) v :=
  List.foldl_append ..

lemma el_crc8_eq_fold (data : List Nat) : el_crc8 data = el_crc8_fold 0 data := rfl

lemma el_crc8_fold_lt {data : List Nat} (hd : ∀ b ∈ data, b < 256) :
    ∀ {crc : Nat}, crc < 256 → el_crc8_fold crc data < 256 := by
  induction data with
  | nil => intro crc h; exact h
  | cons b rest ih =>
      intro crc h
      rw [el_crc8_fold_cons]
      exact ih (fun x hx => hd x (List.mem_cons_of_mem _ hx))
        (el_crc8_update_lt h (hd b (List.mem_cons_self _ _)))

lemma el_crc8_fold_inj {data : List Nat} (hd : ∀ b ∈ data, b < 256)
    {a a' : Nat} (ha : a < 256) (ha' : a' < 256) (hne : a ≠ a') :
    el_crc8_fold a data ≠ el_crc8_fold a' data := by
  induction data generalizing a a' with
  | nil => exact hne
  | cons b rest ih =>
      rw [el_crc8_fold_cons, el_crc8_fold_cons]
      have hb : b < 256 := hd b (List.mem_cons_self _ _)
      exact ih (fun x hx => hd x (List.mem_cons_of_mem _ hx))
        (el_crc8_update_lt ha hb) (el_crc8_update_lt ha' hb)
        (el_crc8_update_left_inj ha ha' hb hne)

/-- Changing exactly one byte of the input changes the CRC-8 value:
the table update is a bijection in each argument, so the altered
accumulator propagates to a different final value. -/
lemma el_crc8_flip_ne {u v : List Nat} {b b' : Nat}
    (hu : ∀ x ∈ u, x < 256) (hv : ∀ x ∈ v, x < 256)
    (hb : b < 256) (hb' : b' < 256) (hne : b ≠ b') :
    el_crc8 (u ++ b :: v) ≠ el_crc8 (u ++ b' :: v) := by
  rw [el_crc8_eq_fold, el_crc8_eq_fold, el_crc8_fold_append, el_crc8_fold_append,
    el_crc8_fold_cons, el_crc8_fold_cons]
  have h0 : el_crc8_fold 0 u < 256 := el_crc8_fold_lt hu (by norm_num)
  exact el_crc8_fold_inj hv (el_crc8_update_lt h0 hb) (el_crc8_update_lt h0 hb')
    (el_crc8_update_right_inj h0 hb hb' hne)

/-! ### Agreement of the table CRC with the bitwise reference CRC -/

lemma spec_crc8_step_lt (x : Nat) : spec_crc8_step x < 256 := by
  unfold spec_crc8_step
  split <;> exact Nat.mod_lt _ (by norm_num)

lemma el_crc8_update_eq_spec {crc b : Nat} (h1 : crc < 256) (h2 : b < 256) :
    el_crc8_update crc b = spec_crc8_byte crc b := by
  have hx : crc ^^^ b < 256 := xor_lt_256 h1 h2
  have := crc8_table_entry_bitwise _ hx
  rw [el_crc8_update, this, spec_crc8_byte, spec_crc8_byte, Nat.zero_xor]

lemma el_crc8_fold_eq_spec {data : List Nat} (hd : ∀ b ∈ data, b < 256) :
    ∀ {crc : Nat}, crc < 256 →
      el_crc8_fold crc data = data.foldl spec_crc8_byte crc := by
  induction data with
  | nil => intro crc _; rfl
  | cons b rest ih =>
      intro crc h
      have hb : b < 256 := hd b (List.mem_cons_self _ _)
      rw [el_crc8_fold_cons, List.foldl_cons,
        ih (fun x hx => hd x (List.mem_cons_of_mem _ hx)) (el_crc8_update_lt h hb),
        el_crc8_update_eq_spec h hb]

/-! ### Elementary runs of the parser -/

lemma el_process_bytes_nil (ctx : ElCtx) : el_process_bytes ctx [] = (ctx, []) := rfl

lemma el_process_bytes_cons (ctx : ElCtx) (b : Nat) (rest : List Nat) :
    el_process_bytes ctx (b :: rest) =
      ((el_process_bytes (el_process_byte ctx b).1 rest).1,
       (el_process_byte ctx b).2 ++
         (el_process_bytes (el_process_byte ctx b).1 rest).2) := rfl

lemma el_process_bytes_append (ctx : ElCtx) (u v : List Nat) :
    el_process_bytes ctx (u ++ v) =
      ((el_process_bytes (el_process_bytes ctx u).1 v).1,
       (el_process_bytes ctx u).2 ++
         (el_process_bytes (el_process_bytes ctx u).1 v).2) := by
  induction u generalizing ctx with
  | nil => simp [el_process_bytes_nil]
  | cons b rest ih =>
      simp only [List.cons_append, el_process_bytes_cons, ih, List.append_assoc]

lemma el_process_byte_idle_skip {ctx : ElCtx} {b : Nat} (h : ctx.state = .idle)
    (hb : b ≠ EL_SYNC_BYTE) : el_process_byte ctx b = (ctx, []) := by
  unfold el_process_byte
  rw [h]
  simp [hb]

lemma el_process_bytes_noise {ctx : ElCtx} (h : ctx.state = .idle)
    {noise : List Nat} (hn : ∀ x ∈ noise, x ≠ EL_SYNC_BYTE) :
    el_process_bytes ctx noise = (ctx, []) := by
  induction noise with
  | nil => rfl
  | cons b rest ih =>
      rw [el_process_bytes_cons,
        el_process_byte_idle_skip h (hn b (List.mem_cons_self _ _))]
      simpa using ih (fun x hx => hn x (List.mem_cons_of_mem _ hx))

/-! ### The effect of the payload-phase buffer writes -/

lemma writeList_length : ∀ (q buf : List Nat) (k : Nat),
    (writeList buf k q).length = buf.length := by
  intro q
  induction q with
  | nil => intro buf k; rfl
  | cons b rest ih =>
      intro buf k
      rw [writeList, ih]
      exact List.length_set ..

lemma take_succ_set {buf : List Nat} {k : Nat} (b : Nat) (h : k < buf.length) :
    (buf.set k b).take (k + 1) = buf.take k ++ [b] := by
  rw [List.set_eq_take_cons_drop b h, List.take_append_eq_append_take,
    List.take_take, Nat.min_eq_right (Nat.le_succ k),
    List.length_take_of_le (Nat.le_of_lt h), Nat.succ_sub (Nat.le_refl k),
    Nat.sub_self]
  rfl

lemma writeList_take : ∀ (q buf : List Nat) (k : Nat),
    k + q.length ≤ buf.length →
    (writeList buf k q).take (k + q.length) = buf.take k ++ q := by
  intro q
  induction q with
  | nil => intro buf k h; simp [writeList]
  | cons b rest ih =>
      intro buf k h
      have hk : k < buf.length := by
        simp only [List.length_cons] at h; omega
      have h2 : (k + 1) + rest.length ≤ (buf.set k b).length := by
        rw [List.length_set]; simp only [List.length_cons] at h; omega
      rw [writeList,
        show k + (b :: rest).length = (k + 1) + rest.length by
          simp only [List.length_cons]; omega,
        ih (buf.set k b) (k + 1) h2, take_succ_set b hk]
      simp

/-! ### The payload phase of the parser -/

lemma el_process_byte_gotLen {ctx : ElCtx} {b : Nat} (hst : ctx.state = .gotLen)
    (hidx : ctx.payload_idx < ctx.payload_len) (hmax : ctx.payload_len ≤ 250) :
    el_process_byte ctx b =
      if ctx.payload_idx + 1 ≥ ctx.payload_len then
        ({ ctx with rx_buffer := ctx.rx_buffer.set ctx.payload_idx b,
                    payload_idx := ctx.payload_idx + 1,
                    running_crc := el_crc8_update ctx.running_crc b,
                    state := .gotPayload }, [])
      else
        ({ ctx with rx_buffer := ctx.rx_buffer.set ctx.payload_idx b,
                    payload_idx := ctx.payload_idx + 1,
                    running_crc := el_crc8_update ctx.running_crc b }, []) := by
  have hmod : (ctx.payload_idx + 1) % 2 ^ 8 = ctx.payload_idx + 1 :=
    Nat.mod_eq_of_lt (by omega)
  unfold el_process_byte
  rw [hst]
  simp only [hmod]

lemma run_gotLen : ∀ (q : List Nat) (ctx : ElCtx), q ≠ [] →
    ctx.state = .gotLen →
    ctx.payload_idx + q.length = ctx.payload_len →
    ctx.payload_len ≤ 250 →
    el_process_bytes ctx q =
      ({ ctx with rx_buffer := writeList ctx.rx_buffer ctx.payload_idx q,
                  payload_idx := ctx.payload_len,
                  running_crc := el_crc8_fold ctx.running_crc q,
                  state := .gotPayload }, []) := by
  intro q
  induction q with
  | nil => intro ctx hq; exact absurd rfl hq
  | cons b rest ih =>
      intro ctx _ hst hlen hmax
      simp only [List.length_cons] at hlen
      have hidx : ctx.payload_idx < ctx.payload_len := by omega
      rw [el_process_bytes_cons, el_process_byte_gotLen hst hidx hmax]
      by_cases hrest : rest = []
      · subst hrest
        have h1 : ctx.payload_idx + 1 = ctx.payload_len := by
          simp only [List.length_nil] at hlen; omega
        rw [if_pos (by omega)]
        simp only [el_process_bytes_nil, List.append_nil]
        rw [writeList, writeList, el_crc8_fold_cons, el_crc8_fold_nil, h1]
      · have hlt : ctx.payload_idx + 1 < ctx.payload_len := by
          have : 0 < rest.length := List.length_pos.mpr hrest
          omega
        rw [if_neg (by omega)]
        rw [ih _ hrest (by simp [hst]) (by simp; omega) (by simp [hmax])]
        simp only [List.nil_append]
        rw [writeList, el_crc8_fold_cons]

/-! ### The header and checksum phases of the parser -/

lemma el_process_byte_idle_sync {ctx : ElCtx} (h : ctx.state = .idle) :
    el_process_byte ctx EL_SYNC_BYTE =
      ({ ctx with state := .gotSync, running_crc := 0 }, []) := by
  unfold el_process_byte
  rw [h]
  simp

lemma el_process_byte_gotSync {ctx : ElCtx} {b : Nat} (h : ctx.state = .gotSync) :
    el_process_byte ctx b =
      ({ ctx with msg_id := b,
                  running_crc := el_crc8_update ctx.running_crc b,
                  state := .gotId }, []) := by
  unfold el_process_byte
  rw [h]

lemma el_process_byte_gotId_ok {ctx : ElCtx} {b : Nat} (h : ctx.state = .gotId)
    (hb : b ≤ 250) :
    el_process_byte ctx b =
      if b = 0 then
        ({ ctx with payload_len := b,
                    running_crc := el_crc8_update ctx.running_crc b,
                    state := .gotPayload }, [])
      else
        ({ ctx with payload_len := b,
                    running_crc := el_crc8_update ctx.running_crc b,
                    payload_idx := 0, state := .gotLen }, []) := by
  unfold el_process_byte
  rw [h]
  simp only [EL_MAX_PAYLOAD]
  rw [if_neg (by omega)]

lemma el_process_byte_gotId_over {ctx : ElCtx} {b : Nat} (h : ctx.state = .gotId)
    (hb : b > 250) :
    el_process_byte ctx b =
      ({ ctx with payload_len := b,
                  running_crc := el_crc8_update ctx.running_crc b,
                  rx_errors := (ctx.rx_errors + 1) % 2 ^ 32,
                  state := .idle }, []) := by
  unfold el_process_byte
  rw [h]
  simp only [EL_MAX_PAYLOAD]
  rw [if_pos (by omega)]

lemma el_process_byte_gotPayload {ctx : ElCtx} {b : Nat}
    (h : ctx.state = .gotPayload) :
    el_process_byte ctx b =
      if b = ctx.running_crc then
        ({ ctx with rx_frames := (ctx.rx_frames + 1) % 2 ^ 32, state := .idle },
         if ctx.on_message ≠ 0 then
           [⟨ctx.msg_id, ctx.rx_buffer.take ctx.payload_len, ctx.payload_len⟩]
         else [])
      else
        ({ ctx with rx_errors := (ctx.rx_errors + 1) % 2 ^ 32,
                    state := .idle }, []) := by
  unfold el_process_byte
  rw [h]

/-- Feeding one whole frame `[sync][m][|p|][p…][c]` to an idle parser:
accepted when `c` is the CRC over `m :: |p| :: p`, rejected otherwise. -/
lemma frame_parse (ctx : ElCtx) (m c : Nat) (p : List Nat)
    (hst : ctx.state = .idle) (hbuf : ctx.rx_buffer.length = 250)
    (hp : p.length ≤ 250) :
    el_process_bytes ctx (EL_SYNC_BYTE :: m :: p.length :: (p ++ [c])) =
      if c = el_crc8 (m :: p.length :: p) then
        ({ ctx with msg_id := m, payload_len := p.length,
                    payload_idx := if p.length = 0 then ctx.payload_idx
                                   else p.length,
                    rx_buffer := writeList ctx.rx_buffer 0 p,
                    running_crc := el_crc8 (m :: p.length :: p),
                    rx_frames := (ctx.rx_frames + 1) % 2 ^ 32,
                    state := .idle },
         if ctx.on_message ≠ 0 then [⟨m, p, p.length⟩] else [])
      else
        ({ ctx with msg_id := m, payload_len := p.length,
                    payload_idx := if p.length = 0 then ctx.payload_idx
                                   else p.length,
                    rx_buffer := writeList ctx.rx_buffer 0 p,
                    running_crc := el_crc8 (m :: p.length :: p),
                    rx_errors := (ctx.rx_errors + 1) % 2 ^ 32,
                    state := .idle }, []) := by
  obtain ⟨om, sb, st, mid, plen, pidx, buf, crc, rxf, rxe, txf⟩ := ctx
  dsimp only at hst hbuf ⊢
  subst hst
  have htake : (writeList buf 0 p).take p.length = p := by
    have := writeList_take p buf 0 (by rw [hbuf]; omega)
    simpa using this
  rw [el_process_bytes_cons, el_process_byte_idle_sync rfl]
  dsimp only
  rw [el_process_bytes_cons, el_process_byte_gotSync rfl]
  dsimp only
  rw [el_process_bytes_cons, el_process_byte_gotId_ok rfl hp]
  dsimp only
  by_cases hpz : p.length = 0
  · have hpnil : p = [] := List.length_eq_zero.mp hpz
    subst hpnil
    rw [if_pos (show List.length ([] : List Nat) = 0 from rfl),
      if_pos (show List.length ([] : List Nat) = 0 from rfl)]
    dsimp only [List.nil_append]
    rw [el_process_bytes_cons, el_process_byte_gotPayload rfl,
      el_process_bytes_nil]
    dsimp only
    by_cases hc : c = el_crc8 [m, List.length ([] : List Nat)]
    · rw [if_pos (by exact hc), if_pos hc]
      simp [writeList, el_crc8, el_crc8_update]
    · rw [if_neg (by exact hc), if_neg hc]
      simp [writeList, el_crc8, el_crc8_update]
  · have hpne : p ≠ [] := fun h => hpz (by rw [h]; rfl)
    rw [if_neg hpz, if_neg hpz]
    rw [el_process_bytes_append]
    rw [run_gotLen p _ hpne rfl (by dsimp only; omega) (by dsimp only; omega)]
    dsimp only
    rw [el_process_bytes_cons, el_process_byte_gotPayload rfl,
      el_process_bytes_nil]
    dsimp only
    by_cases hc : c = el_crc8 (m :: p.length :: p)
    · rw [if_pos (by exact hc), if_pos hc]
      simp [htake, el_crc8, el_crc8_fold, el_crc8_update]
    · rw [if_neg (by exact hc), if_neg hc]
      simp [el_crc8, el_crc8_fold, el_crc8_update]

/-! ### Miscellaneous helpers -/

lemma el_init_eq {om sb : Nat} {c : ElCtx} (h : el_init om sb = some c) :
    om ≠ 0 ∧ sb ≠ 0 ∧ c = el_initCtx om sb := by
  unfold el_init at h
  split at h
  · exact absurd h (by simp)
  · rename_i hcond
    push_neg at hcond
    exact ⟨hcond.1, hcond.2, (Option.some.inj h).symm⟩

lemma xor_pow_ne (x i : Nat) : x ^^^ 2 ^ i ≠ x := by
  intro h
  have h2 : x ^^^ 2 ^ i = x ^^^ 0 := by simpa using h
  exact (Nat.pos_pow_of_pos i (by norm_num)).ne' (Nat.xor_right_inj.mp h2)

lemma two_pow_lt_256 {i : Nat} (hi : i < 8) : 2 ^ i < 256 := by
  have : 2 ^ i ≤ 2 ^ 7 := Nat.pow_le_pow_right (by norm_num) (by omega)
  omega

/-- The parser invariant behind the memory-safety claim: in `gotLen`
the write cursor is strictly below the declared length, which is at
most 250, and the receive buffer always keeps its 250-byte size. -/
lemma reachable_inv {c : ElCtx} (h : Reachable c) :
    (c.state = .gotLen → c.payload_idx < c.payload_len ∧ c.payload_len ≤ 250) ∧
    c.rx_buffer.length = 250 := by
  induction h with
  | init om sb c h =>
      obtain ⟨-, -, rfl⟩ := el_init_eq h
      refine ⟨fun hst => ?_, by simp [el_initCtx]⟩
      simp [el_initCtx] at hst
  | step c b hr ih =>
      obtain ⟨om, sb, st, mid, plen, pidx, buf, crc, rxf, rxe, txf⟩ := c
      dsimp only at ih ⊢
      cases st with
      | idle =>
          by_cases hb : b = EL_SYNC_BYTE
          · subst hb
            rw [el_process_byte_idle_sync rfl]
            dsimp only
            exact ⟨fun hst => by simp at hst, ih.2⟩
          · rw [el_process_byte_idle_skip rfl hb]
            exact ih
      | gotSync =>
          rw [el_process_byte_gotSync rfl]
          dsimp only
          exact ⟨fun hst => by simp at hst, ih.2⟩
      | gotId =>
          by_cases hb : b > 250
          · rw [el_process_byte_gotId_over rfl hb]
            dsimp only
            exact ⟨fun hst => by simp at hst, ih.2⟩
          · rw [el_process_byte_gotId_ok rfl (by omega)]
            by_cases hb0 : b = 0
            · rw [if_pos hb0]
              dsimp only
              exact ⟨fun hst => by simp at hst, ih.2⟩
            · rw [if_neg hb0]
              dsimp only
              exact ⟨fun _ => ⟨Nat.pos_of_ne_zero hb0, by omega⟩, ih.2⟩
      | gotLen =>
          obtain ⟨hidx, hmax⟩ := ih.1 rfl
          rw [el_process_byte_gotLen rfl hidx hmax]
          split
          · dsimp only
            exact ⟨fun hst => by simp at hst, by simpa using ih.2⟩
          · rename_i hge
            dsimp only
            refine ⟨fun _ => ⟨?_, hmax⟩, by simpa using ih.2⟩
            dsimp only at hge
            omega
      | gotPayload =>
          rw [el_process_byte_gotPayload rfl]
          split
          · dsimp only
            exact ⟨fun hst => by simp at hst, ih.2⟩
          · dsimp only
            exact ⟨fun hst => by simp at hst, ih.2⟩
  | reset c hr ih =>
      refine ⟨fun hst => ?_, by simpa [el_reset] using ih.2⟩
      simp [el_reset] at hst

/-- A frame whose trailing byte is not the CRC of its body is rejected:
no callback, rejected counter incremented, parser back in `Idle`. -/
lemma frame_parse_reject (ctx : ElCtx) (m c : Nat) (p : List Nat)
    (hst : ctx.state = .idle) (hbuf : ctx.rx_buffer.length = 250)
    (hp : p.length ≤ 250) (hc : c ≠ el_crc8 (m :: p.length :: p)) :
    (el_process_bytes ctx
      (EL_SYNC_BYTE :: m :: p.length :: (p ++ [c]))).2 = [] ∧
    (el_process_bytes ctx
      (EL_SYNC_BYTE :: m :: p.length :: (p ++ [c]))).1.rx_errors =
        (ctx.rx_errors + 1) % 2 ^ 32 ∧
    (el_process_bytes ctx
      (EL_SYNC_BYTE :: m :: p.length :: (p ++ [c]))).1.state = .idle ∧
    (el_process_bytes ctx
      (EL_SYNC_BYTE :: m :: p.length :: (p ++ [c]))).1.rx_frames =
        ctx.rx_frames := by
  rw [frame_parse ctx m c p hst hbuf hp, if_neg hc]
  exact ⟨rfl, rfl, rfl, rfl⟩

lemma list_split_at {p : List Nat} {j : Nat} (h : j < p.length) :
    p = p.take j ++ p.getD j 0 :: p.drop (j + 1) := by
  rw [List.getD_eq_getElem p 0 h, List.getElem_cons_drop p j h,
    List.take_append_drop]

/-! ### The claims -/

/-- C2: in `GotPayload`, a byte equal to the running CRC accepts the
frame: the received-frame counter is incremented (32-bit increment) and
the message callback is invoked exactly once, synchronously, with
`(message-id, receive-buffer view, length)`; any other byte rejects the
frame: the rejected-frame counter is incremented and no callback is
invoked.  In both cases the parser state becomes `Idle`. -/
theorem claim_C2 (ctx : ElCtx) (byte : Nat) (hst : ctx.state = .gotPayload)
    (hom : ctx.on_message ≠ 0) :
    (byte = ctx.running_crc →
      el_process_byte ctx byte =
        ({ ctx with rx_frames := (ctx.rx_frames + 1) % 2 ^ 32,
                    state := .idle },
         [⟨ctx.msg_id, ctx.rx_buffer.take ctx.payload_len,
           ctx.payload_len⟩])) ∧
    (byte ≠ ctx.running_crc →
      el_process_byte ctx byte =
        ({ ctx with rx_errors := (ctx.rx_errors + 1) % 2 ^ 32,
                    state := .idle }, [])) := by
  constructor
  · intro h
    rw [el_process_byte_gotPayload hst, if_pos h, if_pos hom]
  · intro h
    rw [el_process_byte_gotPayload hst, if_neg h]

/-- Witness for C2 at a concrete context in `GotPayload` (running CRC 0):
byte 0 accepts with one callback, byte 1 rejects with none. -/
theorem claim_C2_witness :
    el_process_byte { el_initCtx 1 1 with state := .gotPayload } 0 =
      ({ el_initCtx 1 1 with state := .idle, rx_frames := 1 },
       [⟨0, [], 0⟩]) ∧
    el_process_byte { el_initCtx 1 1 with state := .gotPayload } 1 =
      ({ el_initCtx 1 1 with state := .idle, rx_errors := 1 }, []) := by
  have h0 := (claim_C2 { el_initCtx 1 1 with state := .gotPayload } 0 rfl
    (by decide)).1 rfl
  have h1 := (claim_C2 { el_initCtx 1 1 with state := .gotPayload } 1 rfl
    (by decide)).2 (by decide)
  exact ⟨by simpa [el_initCtx] using h0, by simpa [el_initCtx] using h1⟩

/-- C3: `el_crc8` is the CRC-8 with polynomial 0x07, initial value 0x00
and no reflection: the 256-entry `crc8_table` agrees entry-by-entry
with the bitwise definition, and the table-driven fold computes the
same value as the naive bitwise algorithm on every byte sequence. -/
theorem claim_C3 :
    (∀ i < 256, crc8_table.getD i 0 = spec_crc8_byte 0 i) ∧
    (∀ data : List Nat, (∀ b ∈ data, b < 256) →
      el_crc8 data = spec_crc8_bitwise data) := by
  refine ⟨crc8_table_entry_bitwise, fun data hd => ?_⟩
  rw [el_crc8_eq_fold, el_crc8_fold_eq_spec hd (by norm_num)]
  rfl

/-- Witness for C3: table entry 7 and the CRC of the spec's concrete
frame body agree with the bitwise reference. -/
theorem claim_C3_witness :
    crc8_table.getD 7 0 = spec_crc8_byte 0 7 ∧
    el_crc8 [0x10, 0x03, 0x01, 0x02, 0x03] =
      spec_crc8_bitwise [0x10, 0x03, 0x01, 0x02, 0x03] :=
  ⟨claim_C3.1 7 (by norm_num), claim_C3.2 _ (by decide)⟩

/-- C4: every context reachable from initialization by byte processing
and resets satisfies: in `GotLen` the write cursor is strictly below
the declared payload length, which is at most 250 (so every buffer
write lands strictly below index 250), and the receive buffer keeps
its fixed 250-byte size regardless of the input stream. -/
theorem claim_C4 (c : ElCtx) (h : Reachable c) :
    (c.state = .gotLen →
      c.payload_idx < c.payload_len ∧ c.payload_len ≤ 250 ∧
      c.payload_idx < 250) ∧
    c.rx_buffer.length = 250 := by
  obtain ⟨h1, h2⟩ := reachable_inv h
  exact ⟨fun hst => ⟨(h1 hst).1, (h1 hst).2, by
    obtain ⟨a, b⟩ := h1 hst; omega⟩, h2⟩

/-- Witness for C4 at the freshly initialized context. -/
theorem claim_C4_witness :
    ((el_initCtx 1 1).state = .gotLen →
      (el_initCtx 1 1).payload_idx < (el_initCtx 1 1).payload_len ∧
      (el_initCtx 1 1).payload_len ≤ 250 ∧
      (el_initCtx 1 1).payload_idx < 250) ∧
    (el_initCtx 1 1).rx_buffer.length = 250 :=
  claim_C4 _ (Reachable.init 1 1 _ (by simp [el_init]))

/-- C9: a non-sync byte in `Idle` leaves the whole context unchanged
and fires no callback; consequently an arbitrary run of non-sync bytes
preceding any further input is fully discarded and does not affect its
processing. -/
theorem claim_C9 :
    (∀ (ctx : ElCtx) (b : Nat), ctx.state = .idle → b ≠ EL_SYNC_BYTE →
      el_process_byte ctx b = (ctx, [])) ∧
    (∀ (ctx : ElCtx) (noise rest : List Nat), ctx.state = .idle →
      (∀ x ∈ noise, x ≠ EL_SYNC_BYTE) →
      el_process_bytes ctx (noise ++ rest) = el_process_bytes ctx rest) := by
  refine ⟨fun ctx b h hb => el_process_byte_idle_skip h hb,
    fun ctx noise rest h hn => ?_⟩
  rw [el_process_bytes_append, el_process_bytes_noise h hn]
  simp

/-- Witness for C9: byte 0 is discarded while idle, and noise `[1,2,3]`
before input `[0xA5]` does not change its processing. -/
theorem claim_C9_witness :
    el_process_byte (el_initCtx 1 1) 0 = (el_initCtx 1 1, []) ∧
    el_process_bytes (el_initCtx 1 1) ([1, 2, 3] ++ [0xA5]) =
      el_process_bytes (el_initCtx 1 1) [0xA5] :=
  ⟨claim_C9.1 _ 0 rfl (by decide), claim_C9.2 _ [1, 2, 3] [0xA5] rfl (by decide)⟩

/-- C10: `el_reset` sets the state to `Idle` and zeroes the write
cursor and the running CRC, leaving the three counters, the receive
buffer contents and the two configured callbacks unchanged; resetting
a context already in `Idle` with zero cursor and zero running CRC
changes nothing. -/
theorem claim_C10 (ctx : ElCtx) :
    (el_reset ctx).state = .idle ∧ (el_reset ctx).payload_idx = 0 ∧
    (el_reset ctx).running_crc = 0 ∧
    (el_reset ctx).rx_frames = ctx.rx_frames ∧
    (el_reset ctx).rx_errors = ctx.rx_errors ∧
    (el_reset ctx).tx_frames = ctx.tx_frames ∧
    (el_reset ctx).rx_buffer = ctx.rx_buffer ∧
    (el_reset ctx).on_message = ctx.on_message ∧
    (el_reset ctx).send_bytes = ctx.send_bytes ∧
    (ctx.state = .idle → ctx.payload_idx = 0 → ctx.running_crc = 0 →
      el_reset ctx = ctx) := by
  obtain ⟨om, sb, st, mid, plen, pidx, buf, crc, rxf, rxe, txf⟩ := ctx
  refine ⟨rfl, rfl, rfl, rfl, rfl, rfl, rfl, rfl, rfl, ?_⟩
  intro h1 h2 h3
  dsimp only at h1 h2 h3
  subst h1
  subst h2
  subst h3
  rfl

/-- Witness for C10: resetting the fresh context is a no-op. -/
theorem claim_C10_witness :
    (el_reset (el_initCtx 1 1)).state = .idle ∧
    el_reset (el_initCtx 1 1) = el_initCtx 1 1 :=
  ⟨(claim_C10 _).1, (claim_C10 _).2.2.2.2.2.2.2.2.2 rfl rfl rfl⟩

/-- C1: round-trip.  For every message-id `m` and payload `p` with
`|p| ≤ 250`, `el_send` on an initialized context hands the sink exactly
the frame `frameBytes m p`, and feeding those bytes into a freshly
initialized parser yields exactly one callback invocation, with
arguments `(m, p, |p|)`. -/
theorem claim_C1 (om sb om2 sb2 : Nat) (c0 c1 : ElCtx) (m : Nat)
    (p : List Nat) (h0 : el_init om sb = some c0)
    (h1 : el_init om2 sb2 = some c1) (hp : p.length ≤ 250) :
    el_send c0 m (some p) p.length =
      (true, { c0 with tx_frames := 1 }, [frameBytes m p]) ∧
    (el_process_bytes c1 (frameBytes m p)).2 = [⟨m, p, p.length⟩] := by
  obtain ⟨hom0, hsb0, rfl⟩ := el_init_eq h0
  obtain ⟨hom1, hsb1, rfl⟩ := el_init_eq h1
  constructor
  · unfold el_send
    rw [if_neg (show ¬(el_initCtx om sb).send_bytes = 0 from hsb0),
      if_neg (by simp only [EL_MAX_PAYLOAD]; omega), if_neg (by simp)]
    simp [el_initCtx, frameBytes, List.take_length]
  · have hb : (el_initCtx om2 sb2).rx_buffer.length = 250 := by
      simp [el_initCtx]
    have h := frame_parse (el_initCtx om2 sb2) m
      (el_crc8 (m :: p.length :: p)) p rfl hb hp
    rw [if_pos rfl] at h
    unfold frameBytes
    rw [h]
    dsimp only
    rw [if_pos (show (el_initCtx om2 sb2).on_message ≠ 0 from hom1)]

/-- Witness for C1: message-id 0x10 with payload `[1, 2, 3]`. -/
theorem claim_C1_witness :
    el_send (el_initCtx 1 1) 0x10 (some [1, 2, 3]) 3 =
      (true, { el_initCtx 1 1 with tx_frames := 1 },
       [frameBytes 0x10 [1, 2, 3]]) ∧
    (el_process_bytes (el_initCtx 1 1) (frameBytes 0x10 [1, 2, 3])).2 =
      [⟨0x10, [1, 2, 3], 3⟩] :=
  claim_C1 1 1 1 1 _ _ 0x10 [1, 2, 3] (by simp [el_init])
    (by simp [el_init]) (by norm_num)

/-- C5: in `GotId`, a length byte exceeding 250 rejects the frame at
once — the rejected-frame counter is incremented (32-bit increment) and
the state returns to `Idle` with no callback — and a sync marker in the
subsequent input (here after arbitrary non-sync noise) starts a fresh
parse that accepts a valid frame. -/
theorem claim_C5 (ctx : ElCtx) (b : Nat) (hst : ctx.state = .gotId)
    (hb : b > 250) :
    el_process_byte ctx b =
      ({ ctx with payload_len := b,
                  running_crc := el_crc8_update ctx.running_crc b,
                  rx_errors := (ctx.rx_errors + 1) % 2 ^ 32,
                  state := .idle }, []) ∧
    (∀ (noise : List Nat) (m : Nat) (p : List Nat),
      (∀ x ∈ noise, x ≠ EL_SYNC_BYTE) → p.length ≤ 250 →
      ctx.rx_buffer.length = 250 → ctx.on_message ≠ 0 →
      (el_process_bytes (el_process_byte ctx b).1
        (noise ++ frameBytes m p)).2 = [⟨m, p, p.length⟩]) := by
  have h1 := el_process_byte_gotId_over hst hb
  refine ⟨h1, fun noise m p hn hp hbuf hom => ?_⟩
  rw [h1]
  dsimp only
  rw [el_process_bytes_append, el_process_bytes_noise rfl hn]
  dsimp only
  have h2 := frame_parse
    { ctx with payload_len := b,
               running_crc := el_crc8_update ctx.running_crc b,
               rx_errors := (ctx.rx_errors + 1) % 2 ^ 32,
               state := .idle } m (el_crc8 (m :: p.length :: p)) p rfl
    (show ctx.rx_buffer.length = 250 from hbuf) hp
  rw [if_pos rfl] at h2
  unfold frameBytes
  rw [h2]
  dsimp only
  rw [if_pos (show ctx.on_message ≠ 0 from hom)]
  rfl

/-- Witness for C5: from `GotId`, length byte 251 is rejected at once,
and a later frame (id 0x10, payload `[7]`) after noise is accepted. -/
theorem claim_C5_witness :
    el_process_byte { el_initCtx 1 1 with state := .gotId } 251 =
      ({ el_initCtx 1 1 with state := .idle, payload_len := 251,
                             running_crc := el_crc8_update 0 251,
                             rx_errors := 1 }, []) ∧
    (el_process_bytes
      (el_process_byte { el_initCtx 1 1 with state := .gotId } 251).1
      ([0] ++ frameBytes 0x10 [7])).2 = [⟨0x10, [7], 1⟩] := by
  have h := claim_C5 { el_initCtx 1 1 with state := .gotId } 251 rfl
    (by norm_num)
  refine ⟨by simpa [el_initCtx] using h.1, ?_⟩
  have h2 := h.2 [0] 0x10 [7] (by decide) (by norm_num)
    (by simp [el_initCtx]) (by decide)
  simpa using h2

/-- C6: for `|p| ≤ 250`, `el_send` invokes the byte sink exactly once
with exactly `[0xA5][m][|p|][p…][crc]`, the CRC taken over
`m :: |p| :: p`, returns true and increments the transmitted-frame
counter (32-bit increment); concretely, id 0x10 with payload
`[1, 2, 3]` produces `A5 10 03 01 02 03` followed by the CRC of
`10 03 01 02 03`. -/
theorem claim_C6 (ctx : ElCtx) (m : Nat) (p : List Nat)
    (hs : ctx.send_bytes ≠ 0) (hp : p.length ≤ 250) :
    el_send ctx m (some p) p.length =
      (true, { ctx with tx_frames := (ctx.tx_frames + 1) % 2 ^ 32 },
       [EL_SYNC_BYTE :: m :: p.length ::
         (p ++ [el_crc8 (m :: p.length :: p)])]) ∧
    el_send (el_initCtx 1 1) 0x10 (some [0x01, 0x02, 0x03]) 3 =
      (true, { el_initCtx 1 1 with tx_frames := 1 },
       [[0xA5, 0x10, 0x03, 0x01, 0x02, 0x03,
         el_crc8 [0x10, 0x03, 0x01, 0x02, 0x03]]]) := by
  constructor
  · unfold el_send
    rw [if_neg hs, if_neg (by simp only [EL_MAX_PAYLOAD]; omega),
      if_neg (by simp)]
    simp [List.take_length]
  · decide

/-- Witness for C6 at the fresh context with payload `[1, 2, 3]`. -/
theorem claim_C6_witness :
    el_send (el_initCtx 1 1) 0x10 (some [0x01, 0x02, 0x03]) 3 =
      (true, { el_initCtx 1 1 with tx_frames := 1 },
       [EL_SYNC_BYTE :: 0x10 :: 3 ::
         ([0x01, 0x02, 0x03] ++
           [el_crc8 [0x10, 3, 0x01, 0x02, 0x03]])]) := by
  have h := (claim_C6 (el_initCtx 1 1) 0x10 [0x01, 0x02, 0x03]
    (by decide) (by norm_num)).1
  simpa [el_initCtx] using h

/-- C7: on a context whose sink callback is configured, `el_send`
fails — returning false, invoking the sink zero times, leaving the
whole context (counters included) unchanged — exactly when the length
exceeds 250 or the payload is null while the length is non-zero. -/
theorem claim_C7 (ctx : ElCtx) (m : Nat) (payload : Option (List Nat))
    (len : Nat) (hs : ctx.send_bytes ≠ 0) :
    el_send ctx m payload len = (false, ctx, []) ↔
      len > 250 ∨ (payload = none ∧ len > 0) := by
  unfold el_send
  rw [if_neg hs]
  by_cases h1 : len > EL_MAX_PAYLOAD
  · rw [if_pos h1]
    simp only [EL_MAX_PAYLOAD] at h1
    simp [h1]
  · rw [if_neg h1]
    simp only [EL_MAX_PAYLOAD] at h1
    by_cases h2 : len > 0 ∧ payload = none
    · rw [if_pos h2]
      simp [h2.1, h2.2]
    · rw [if_neg h2]
      constructor
      · intro h
        exact absurd (congrArg Prod.fst h) (by simp)
      · rintro (h | ⟨hn, hpos⟩)
        · omega
        · exact absurd ⟨hpos, hn⟩ h2

/-- Witness for C7: a null payload with non-zero length fails. -/
theorem claim_C7_witness :
    el_send (el_initCtx 1 1) 0 none 5 = (false, el_initCtx 1 1, []) ↔
      5 > 250 ∨ ((none : Option (List Nat)) = none ∧ 5 > 0) :=
  claim_C7 (el_initCtx 1 1) 0 none 5 (by decide)

/-- Counterexample to C8 as stated.  `[A5, 00, 01, 00, 15]` is a valid
frame (a fresh parser accepts it with exactly one callback).  Flipping
bit 0 of its length byte gives `[A5, 00, 00, 00, 15]`, which a fresh
parser does NOT reject: the length byte becomes 0, the old payload
byte 0 is then read as the checksum of the shortened frame and happens
to match, so a callback fires (with an empty payload) and the
rejected-frame counter stays at 0 — contradicting "no callback is
invoked, the rejected-frame counter is incremented by exactly one". -/
theorem claim_C8_counterexample :
    (el_process_bytes (el_initCtx 1 1) [0xA5, 0x00, 0x01, 0x00, 0x15]).2 =
      [⟨0x00, [0x00], 1⟩] ∧
    (el_process_bytes (el_initCtx 1 1) [0xA5, 0x00, 0x00, 0x00, 0x15]).2 =
      [⟨0x00, [], 0⟩] ∧
    (el_process_bytes (el_initCtx 1 1)
      [0xA5, 0x00, 0x00, 0x00, 0x15]).1.rx_errors = 0 ∧
    (el_process_bytes (el_initCtx 1 1)
      [0xA5, 0x00, 0x00, 0x00, 0x15]).1.state = .idle := by
  set_option maxRecDepth 10000 in decide

/-- C8 (amended): for every valid frame, flipping any single bit of the
checksum byte, or any single bit of the message-id byte or of a payload
byte — the length byte excluded — and feeding the modified frame to a
freshly initialized parser causes rejection: no callback is invoked,
the rejected-frame counter is incremented by exactly one (here 0 to 1),
no frame is counted as received, and the parser is back in `Idle`. -/
theorem claim_C8 (om sb : Nat) (c0 : ElCtx) (h0 : el_init om sb = some c0)
    (m : Nat) (p : List Nat) (i : Nat) (hm : m < 256)
    (hp : ∀ x ∈ p, x < 256) (hlen : p.length ≤ 250) (hi : i < 8) :
    ((el_process_bytes c0 (EL_SYNC_BYTE :: m :: p.length ::
        (p ++ [el_crc8 (m :: p.length :: p) ^^^ 2 ^ i]))).2 = [] ∧
     (el_process_bytes c0 (EL_SYNC_BYTE :: m :: p.length ::
        (p ++ [el_crc8 (m :: p.length :: p) ^^^ 2 ^ i]))).1.rx_errors = 1 ∧
     (el_process_bytes c0 (EL_SYNC_BYTE :: m :: p.length ::
        (p ++ [el_crc8 (m :: p.length :: p) ^^^ 2 ^ i]))).1.rx_frames = 0 ∧
     (el_process_bytes c0 (EL_SYNC_BYTE :: m :: p.length ::
        (p ++ [el_crc8 (m :: p.length :: p) ^^^ 2 ^ i]))).1.state = .idle) ∧
    ((el_process_bytes c0 (EL_SYNC_BYTE :: (m ^^^ 2 ^ i) :: p.length ::
        (p ++ [el_crc8 (m :: p.length :: p)]))).2 = [] ∧
     (el_process_bytes c0 (EL_SYNC_BYTE :: (m ^^^ 2 ^ i) :: p.length ::
        (p ++ [el_crc8 (m :: p.length :: p)]))).1.rx_errors = 1 ∧
     (el_process_bytes c0 (EL_SYNC_BYTE :: (m ^^^ 2 ^ i) :: p.length ::
        (p ++ [el_crc8 (m :: p.length :: p)]))).1.rx_frames = 0 ∧
     (el_process_bytes c0 (EL_SYNC_BYTE :: (m ^^^ 2 ^ i) :: p.length ::
        (p ++ [el_crc8 (m :: p.length :: p)]))).1.state = .idle) ∧
    (∀ j < p.length,
     (el_process_bytes c0 (EL_SYNC_BYTE :: m :: p.length ::
        (p.set j (p.getD j 0 ^^^ 2 ^ i) ++
          [el_crc8 (m :: p.length :: p)]))).2 = [] ∧
     (el_process_bytes c0 (EL_SYNC_BYTE :: m :: p.length ::
        (p.set j (p.getD j 0 ^^^ 2 ^ i) ++
          [el_crc8 (m :: p.length :: p)]))).1.rx_errors = 1 ∧
     (el_process_bytes c0 (EL_SYNC_BYTE :: m :: p.length ::
        (p.set j (p.getD j 0 ^^^ 2 ^ i) ++
          [el_crc8 (m :: p.length :: p)]))).1.rx_frames = 0 ∧
     (el_process_bytes c0 (EL_SYNC_BYTE :: m :: p.length ::
        (p.set j (p.getD j 0 ^^^ 2 ^ i) ++
          [el_crc8 (m :: p.length :: p)]))).1.state = .idle) := by
  obtain ⟨hom, hsb, rfl⟩ := el_init_eq h0
  have hb : (el_initCtx om sb).rx_buffer.length = 250 := by simp [el_initCtx]
  have hpow : 2 ^ i < 256 := two_pow_lt_256 hi
  have hlen256 : p.length < 256 := by omega
  refine ⟨?_, ?_, ?_⟩
  · -- (a) checksum-byte flip
    obtain ⟨e1, e2, e3, e4⟩ := frame_parse_reject (el_initCtx om sb) m
      (el_crc8 (m :: p.length :: p) ^^^ 2 ^ i) p rfl hb hlen (xor_pow_ne _ i)
    exact ⟨e1, by rw [e2]; rfl, by rw [e4]; rfl, e3⟩
  · -- (b) message-id flip
    have hv : ∀ x ∈ p.length :: p, x < 256 := by
      intro x hx
      rcases List.mem_cons.mp hx with rfl | hx
      · omega
      · exact hp x hx
    have hcb : el_crc8 (m :: p.length :: p) ≠
        el_crc8 ((m ^^^ 2 ^ i) :: p.length :: p) := by
      have e := el_crc8_flip_ne (u := []) (v := p.length :: p)
        (by simp) hv hm (xor_lt_256 hm hpow) (xor_pow_ne m i).symm
      simpa using e
    obtain ⟨e1, e2, e3, e4⟩ := frame_parse_reject (el_initCtx om sb)
      (m ^^^ 2 ^ i) (el_crc8 (m :: p.length :: p)) p rfl hb hlen hcb
    exact ⟨e1, by rw [e2]; rfl, by rw [e4]; rfl, e3⟩
  · -- (c) payload-byte flip
    intro j hj
    have hqlen : (p.set j (p.getD j 0 ^^^ 2 ^ i)).length = p.length :=
      List.length_set ..
    have hbj : p.getD j 0 < 256 := by
      rw [List.getD_eq_getElem p 0 hj]
      exact hp _ (List.getElem_mem hj)
    have hu : ∀ x ∈ m :: p.length :: p.take j, x < 256 := by
      intro x hx
      rcases List.mem_cons.mp hx with rfl | hx
      · exact hm
      rcases List.mem_cons.mp hx with rfl | hx
      · omega
      · exact hp x (List.mem_of_mem_take hx)
    have hv : ∀ x ∈ p.drop (j + 1), x < 256 :=
      fun x hx => hp x (List.mem_of_mem_drop hx)
    have hcc : el_crc8 (m :: p.length :: p) ≠
        el_crc8 (m :: p.length :: p.set j (p.getD j 0 ^^^ 2 ^ i)) := by
      have e := el_crc8_flip_ne (u := m :: p.length :: p.take j)
        (v := p.drop (j + 1)) hu hv hbj (xor_lt_256 hbj hpow)
        (xor_pow_ne (p.getD j 0) i).symm
      have hs1 : (m :: p.length :: p.take j) ++
          p.getD j 0 :: p.drop (j + 1) = m :: p.length :: p := by
        simp only [List.cons_append]
        rw [← list_split_at hj]
      have hs2 : (m :: p.length :: p.take j) ++
          (p.getD j 0 ^^^ 2 ^ i) :: p.drop (j + 1) =
            m :: p.length :: p.set j (p.getD j 0 ^^^ 2 ^ i) := by
        simp only [List.cons_append]
        rw [← List.set_eq_take_cons_drop _ hj]
      rw [hs1, hs2] at e
      exact e
    have hr := frame_parse_reject (el_initCtx om sb) m
      (el_crc8 (m :: p.length :: p))
      (p.set j (p.getD j 0 ^^^ 2 ^ i)) rfl hb (by omega)
      (by rw [hqlen]; exact hcc)
    rw [hqlen] at hr
    obtain ⟨e1, e2, e3, e4⟩ := hr
    exact ⟨e1, by rw [e2]; rfl, by rw [e4]; rfl, e3⟩

/-- Witness for C8 (amended) on the valid frame with id 0 and payload
`[0]`: flipping bit 0 of the checksum byte, and flipping bit 0 of the
payload byte, are both rejected without a callback. -/
theorem claim_C8_witness :
    (el_process_bytes (el_initCtx 1 1) (EL_SYNC_BYTE :: 0 :: [0].length ::
      ([0] ++ [el_crc8 (0 :: [0].length :: [0]) ^^^ 2 ^ 0]))).2 = [] ∧
    (el_process_bytes (el_initCtx 1 1) (EL_SYNC_BYTE :: 0 :: [0].length ::
      ([0].set 0 ([0].getD 0 0 ^^^ 2 ^ 0) ++
        [el_crc8 (0 :: [0].length :: [0])]))).2 = [] :=
  ⟨(claim_C8 1 1 (el_initCtx 1 1) (by simp [el_init]) 0 [0] 0 (by norm_num)
      (by decide) (by norm_num) (by norm_num)).1.1,
   ((claim_C8 1 1 (el_initCtx 1 1) (by simp [el_init]) 0 [0] 0 (by norm_num)
      (by decide) (by norm_num) (by norm_num)).2.2 0 (by norm_num)).1⟩

end Etherlink
